import Mathlib

/-!
Verification of the reactive-store reconciliation layer of
`svelte-pocketbase-stores` (src/lib/stores/collection.ts,
src/lib/stores/record.ts, and the `realtimeStoreExpand` helper).

The TypeScript code is shallowly embedded: entities are records with a
string `id` and an otherwise opaque payload, the Pocketbase client's
point/list reads are oracle functions passed in as parameters, and the
network calls issued by `realtimeStoreExpand` / `setPage` are returned
explicitly alongside the value so that "exactly one fetch" style
properties can be stated.
-/

namespace SveltePocketbase

/-- An entity as seen by the stores: `T extends Pick<Record, 'id'>`, i.e.
a record with a string `id` field; every other field is opaque to the
reconciliation code and is modelled by the payload `data : β`. -/
structure Entity (β : Type) where
  id : String
  data : β
deriving DecidableEq

/-- A realtime change event: `RecordSubscription<T>` carries an `action`
string (the code recognises `"create"`, `"update"`, `"delete"`; anything
else hits the `default` branch) and the changed record. -/
structure RecordSubscription (β : Type) where
  action : String
  record : Entity β
deriving DecidableEq

/-- Pocketbase query parameters. Event reconciliation consults only the
`expand` field (`queryParams?.expand`); all other fields are passed
verbatim to the fetch oracles and never inspected, so they are omitted
from the embedding. -/
structure QueryParams where
  expand : Option String := none
deriving DecidableEq

/-- The function `realtimeStoreExpand(collection, record, expand)` from
the library's internal module (reproduced in src/README.md):

```ts
expand
  ? await collection.getOne<T>(record.id, typeof expand === 'string' ? { expand } : undefined)
  : record
```

`collection.getOne` is the point-read oracle `getOne id params` where
`params` is the optional expand directive actually passed (`{ expand }`,
since a truthy `expand` is always a string here). `expand` is truthy
exactly when it is present and non-empty. The second component of the
result records the point reads issued, as `(id, expand)` pairs. -/
def realtimeStoreExpand {β : Type} (getOne : String → Option String → Entity β)
    (record : Entity β) (expand : Option String) : Entity β × List (String × String) :=
  match expand with
  | some s => if s = "" then (record, []) else (getOne record.id (some s), [(record.id, s)])
  | none => (record, [])

/-- The record an event contributes after expansion resolution:
`subscription.record = await realtimeStoreExpand(collection, subscription.record, queryParams?.expand)`. -/
def resolveEventRecord {β : Type} (getOne : String → Option String → Entity β)
    (qp : Option QueryParams) (e : RecordSubscription β) : Entity β :=
  (realtimeStoreExpand getOne e.record (qp.bind QueryParams.expand)).1

/-- The function
`collectionStoreCallback(list, subscription, collection, queryParams)`
from src/lib/stores/collection.ts lines 18–44: the per-event mutation of
the current list.
- `update`: resolve expansion, then
  `list.map(item => item.id === subscription.record.id ? subscription.record : item)`
  (the comparison is against the *expanded* record's id, since
  `subscription.record` was reassigned);
- `create`: resolve expansion, then `[...list, subscription.record]`;
- `delete`: `list.filter(item => item.id !== subscription.record.id)`
  (no expansion in this branch, the raw event record's id is used);
- default: `list` unchanged. -/
def collectionStoreCallback {β : Type} (getOne : String → Option String → Entity β)
    (list : List (Entity β)) (e : RecordSubscription β) (qp : Option QueryParams) :
    List (Entity β) :=
  if e.action = "update" then
    let r := resolveEventRecord getOne qp e
    list.map fun item => if item.id = r.id then r else item
  else if e.action = "create" then
    list ++ [resolveEventRecord getOne qp e]
  else if e.action = "delete" then
    list.filter fun item => item.id ≠ e.record.id
  else
    list

/-- The function
`recordStoreCallback(item, subscription, collection, queryParams)`
from src/lib/stores/record.ts lines 9–25: `update`/`create` return the
expansion-resolved event record, `delete` returns `undefined`, the
default branch returns the current `item`. -/
def recordStoreCallback {β : Type} (getOne : String → Option String → Entity β)
    (item : Option (Entity β)) (e : RecordSubscription β) (qp : Option QueryParams) :
    Option (Entity β) :=
  if e.action = "update" then
    some (resolveEventRecord getOne qp e)
  else if e.action = "create" then
    some (resolveEventRecord getOne qp e)
  else if e.action = "delete" then
    none
  else
    item

/-- Stable insertion of `x` into `l`: `x` is placed immediately before the
first element `y` that the comparator orders strictly after `x`, hence
after any element that compares equal — the placement a stable sort gives
to an element arriving later than the elements of `l`. -/
def insertStable {α : Type} (lt : α → α → Bool) (x : α) : List α → List α
  | [] => [x]
  | y :: ys => if lt x y then x :: y :: ys else y :: insertStable lt x ys

/-- Stable insertion sort: elements are taken left to right and each is
stably inserted into the sorted list of its predecessors. -/
def stableSort {α : Type} (lt : α → α → Bool) (l : List α) : List α :=
  l.foldl (fun acc x => insertStable lt x acc) []

/-- Model of `items.sort(compareFn)` — `Array.prototype.sort` as used by
the stores. Since ES2019 the sort is required to be stable; it is modelled by
a stable insertion sort over the strict order `compareFn(a, b) < 0`.
When `compareFn` is `undefined` (no `sortFunction` option), JavaScript
compares the string conversions of the elements; every entity here is a
plain object whose string conversion is `"[object Object]"`, so all
comparisons tie and the effective strict order is constantly false. -/
def jsSort {α : Type} (cmp : Option (α → α → Int)) (l : List α) : List α :=
  match cmp with
  | some f => stableSort (fun a b => f a b < 0) l
  | none => stableSort (fun _ _ => false) l

/-- Worker for `jsFilter`: `arr` is the whole array the predicate receives
as its third argument, `i` the index of the head of `xs` in `arr`. -/
def jsFilterAux {α : Type} (p : α → Nat → List α → Bool) (arr : List α) :
    Nat → List α → List α
  | _, [] => []
  | i, x :: xs =>
    if p x i arr then x :: jsFilterAux p arr (i + 1) xs else jsFilterAux p arr (i + 1) xs

/-- Model of `items.filter(predicate, thisArg)` — `Array.prototype.filter`: the
predicate receives `(value, index, array)` and keeps the values on which
it is truthy, in order. `thisArg` only binds `this` inside the predicate
and is absorbed into the predicate function here. -/
def jsFilter {α : Type} (p : α → Nat → List α → Bool) (l : List α) : List α :=
  jsFilterAux p l 0 l

/-- The value pushed by `store.set` in `collectionStore`'s subscription
handler (src/lib/stores/collection.ts lines 103–109):

```ts
options.filterFunction
  ? items.sort(options.sortFunction).filter(options.filterFunction, options.filterFunctionThisArg)
  : items.sort(options.sortFunction)
```
-/
def collectionStorePublish {β : Type} (sortFunction : Option (Entity β → Entity β → Int))
    (filterFunction : Option (Entity β → Nat → List (Entity β) → Bool))
    (items : List (Entity β)) : List (Entity β) :=
  match filterFunction with
  | some p => jsFilter p (jsSort sortFunction items)
  | none => jsSort sortFunction items

/-- One full event of `collectionStore`: the realtime handler runs
`collectionStoreCallback` on the current `result` and publishes (and
stores back into `result`) the sorted-then-filtered outcome. -/
def collectionEventStep {β : Type} (getOne : String → Option String → Entity β)
    (sortFunction : Option (Entity β → Entity β → Int))
    (filterFunction : Option (Entity β → Nat → List (Entity β) → Bool))
    (qp : Option QueryParams) (result : List (Entity β)) (e : RecordSubscription β) :
    List (Entity β) :=
  collectionStorePublish sortFunction filterFunction (collectionStoreCallback getOne result e qp)

/-- Pocketbase's `ListResult<T>`: one page window. Numeric fields are
JavaScript numbers holding integers. -/
structure ListResult (β : Type) where
  page : Int
  perPage : Int
  totalItems : Int
  totalPages : Int
  items : List (Entity β)
deriving DecidableEq

/-- The function
`paginatedCollectionStoreCallback(list, subscription, collection, queryParams)`
from src/lib/stores/collection.ts lines 129–157: identical to
`collectionStoreCallback` but reading `list.items`; it returns only the
mutated item list. -/
def paginatedCollectionStoreCallback {β : Type} (getOne : String → Option String → Entity β)
    (list : ListResult β) (e : RecordSubscription β) (qp : Option QueryParams) :
    List (Entity β) :=
  if e.action = "update" then
    let r := resolveEventRecord getOne qp e
    list.items.map fun item => if item.id = r.id then r else item
  else if e.action = "create" then
    list.items ++ [resolveEventRecord getOne qp e]
  else if e.action = "delete" then
    list.items.filter fun item => item.id ≠ e.record.id
  else
    list.items

/-- One full event of `paginatedCollectionStore` (src/lib/stores/collection.ts
lines 227–241): `result = { ...result, items: sorted/filtered items }` —
only the `items` field of the window is rewritten. -/
def paginatedEventStep {β : Type} (getOne : String → Option String → Entity β)
    (sortFunction : Option (Entity β → Entity β → Int))
    (filterFunction : Option (Entity β → Nat → List (Entity β) → Bool))
    (qp : Option QueryParams) (result : ListResult β) (e : RecordSubscription β) :
    ListResult β :=
  { result with
    items :=
      collectionStorePublish sortFunction filterFunction
        (paginatedCollectionStoreCallback getOne result e qp) }

/-- The function `setPage(page)` of `paginatedCollectionStore`
(src/lib/stores/collection.ts lines 249–255):

```ts
if (page > 0 && page <= result.totalPages) {
  store.set((result = await collection.getList<T>(page, result.perPage, options.queryParams)));
}
```

`getList page perPage qp` is the page-read oracle. The second component
lists the page fetches issued, as `(page, perPage, queryParams)` triples. -/
def setPage {β : Type} (getList : Int → Int → Option QueryParams → ListResult β)
    (qp : Option QueryParams) (result : ListResult β) (page : Int) :
    ListResult β × List (Int × Int × Option QueryParams) :=
  if page > 0 ∧ page ≤ result.totalPages then
    (getList page result.perPage qp, [(page, result.perPage, qp)])
  else
    (result, [])

/-- Model of `next: () => setPage(result.page + 1)`. -/
def nextPage {β : Type} (getList : Int → Int → Option QueryParams → ListResult β)
    (qp : Option QueryParams) (result : ListResult β) :
    ListResult β × List (Int × Int × Option QueryParams) :=
  setPage getList qp result (result.page + 1)

/-- Model of `prev: () => setPage(result.page - 1)`. -/
def prevPage {β : Type} (getList : Int → Int → Option QueryParams → ListResult β)
    (qp : Option QueryParams) (result : ListResult β) :
    ListResult β × List (Int × Int × Option QueryParams) :=
  setPage getList qp result (result.page - 1)

/-- Observable effects of the teardown closure. -/
inductive TeardownEvent where
  | awaitedAcquisition
  | invokedRelease
deriving DecidableEq

/-- The teardown closure of both stores (src/lib/stores/collection.ts
lines 113–117, src/lib/stores/record.ts lines 84–88):

```ts
unsubscribe = () => {
  console.log('unsubscribing', ...);
  (async () => await (await unsubscribePromise)())();
  console.log('unsubscribingDone', ...);
};
```

Each invocation first awaits the subscription-acquisition promise
(`await unsubscribePromise`) and then invokes the release function that
promise resolved to. No flag or once-guard is kept, so every invocation
performs both effects again. -/
def unsubscribeInvocationTrace : List TeardownEvent :=
  [TeardownEvent.awaitedAcquisition, TeardownEvent.invokedRelease]

/-- The effect trace of invoking the teardown closure `n` times in
succession. -/
def teardownTrace (n : Nat) : List TeardownEvent :=
  (List.replicate n unsubscribeInvocationTrace).flatten

/-- Folding `collectionStoreCallback` over a sequence of events: the
pre-sort/filter reconciliation of a whole event stream against an
initial snapshot. -/
def applyEvents {β : Type} (getOne : String → Option String → Entity β)
    (qp : Option QueryParams) (init : List (Entity β))
    (events : List (RecordSubscription β)) : List (Entity β) :=
  events.foldl (fun list e => collectionStoreCallback getOne list e qp) init

/-- The first element of `list` whose id is `i`. -/
def findById {β : Type} (list : List (Entity β)) (i : String) : Option (Entity β) :=
  list.find? fun x => x.id = i

/-! ### Basic lemmas about the JavaScript sort/filter models -/

theorem insertStable_false {α : Type} (x : α) (l : List α) :
    insertStable (fun _ _ => false) x l = l ++ [x] := by
  induction l with
  | nil => rfl
  | cons y ys ih => simp [insertStable, ih]

theorem stableSort_false {α : Type} (l : List α) :
    stableSort (fun _ _ => false) l = l := by
  suffices h : ∀ acc : List α,
      l.foldl (fun acc x => insertStable (fun _ _ => false) x acc) acc = acc ++ l by
    simpa using h []
  induction l with
  | nil => intro acc; simp
  | cons x xs ih =>
    intro acc
    rw [List.foldl_cons, insertStable_false, ih]
    simp

theorem jsSort_none {α : Type} (l : List α) : jsSort none l = l :=
  stableSort_false l

theorem mem_insertStable {α : Type} {lt : α → α → Bool} {x a : α} {l : List α} :
    a ∈ insertStable lt x l ↔ a = x ∨ a ∈ l := by
  induction l with
  | nil => simp [insertStable]
  | cons y ys ih =>
    simp only [insertStable]
    by_cases h : lt x y
    · simp [h]
    · simp [h, ih]
      tauto

theorem mem_stableSort {α : Type} {lt : α → α → Bool} {a : α} {l : List α} :
    a ∈ stableSort lt l ↔ a ∈ l := by
  suffices h : ∀ acc : List α,
      a ∈ l.foldl (fun acc x => insertStable lt x acc) acc ↔ a ∈ acc ∨ a ∈ l by
    simpa using h []
  induction l with
  | nil => intro acc; simp
  | cons x xs ih =>
    intro acc
    simp only [List.foldl_cons, ih, mem_insertStable, List.mem_cons]
    tauto

theorem mem_jsSort {α : Type} {cmp : Option (α → α → Int)} {a : α} {l : List α} :
    a ∈ jsSort cmp l ↔ a ∈ l := by
  cases cmp <;> exact mem_stableSort

theorem jsFilterAux_sublist {α : Type} (p : α → Nat → List α → Bool) (arr : List α) :
    ∀ (i : Nat) (xs : List α), (jsFilterAux p arr i xs).Sublist xs := by
  intro i xs
  induction xs generalizing i with
  | nil => simp [jsFilterAux]
  | cons x xs ih =>
    simp only [jsFilterAux]
    by_cases h : p x i arr
    · simpa [h] using (ih (i + 1)).cons₂ x
    · simpa [h] using (ih (i + 1)).cons x

theorem jsFilter_sublist {α : Type} (p : α → Nat → List α → Bool) (l : List α) :
    (jsFilter p l).Sublist l :=
  jsFilterAux_sublist p l 0 l

theorem jsFilterAux_valueOnly {α : Type} (q : α → Bool) (arr : List α) :
    ∀ (i : Nat) (xs : List α), jsFilterAux (fun v _ _ => q v) arr i xs = xs.filter q := by
  intro i xs
  induction xs generalizing i with
  | nil => simp [jsFilterAux]
  | cons x xs ih =>
    by_cases h : q x <;> simp [jsFilterAux, h, ih, List.filter_cons]

theorem jsFilter_valueOnly {α : Type} (q : α → Bool) (l : List α) :
    jsFilter (fun v _ _ => q v) l = l.filter q :=
  jsFilterAux_valueOnly q l 0 l

/-! ### C8: the Expansion Resolver -/

/-- C8: `realtimeStoreExpand` with an absent or empty expand directive
returns the entity unchanged and issues no point read; with a non-empty
directive it issues exactly one point read by the entity's id carrying
that directive, and returns that read's result. -/
theorem realtimeStoreExpand_spec {β : Type} (getOne : String → Option String → Entity β)
    (r : Entity β) (s : String) :
    realtimeStoreExpand getOne r none = (r, []) ∧
    realtimeStoreExpand getOne r (some "") = (r, []) ∧
    (s ≠ "" → realtimeStoreExpand getOne r (some s) = (getOne r.id (some s), [(r.id, s)])) := by
  refine ⟨rfl, rfl, fun h => ?_⟩
  simp [realtimeStoreExpand, h]

/-- Witness for `realtimeStoreExpand_spec` at a concrete entity and a
concrete non-empty expand directive. -/
theorem realtimeStoreExpand_spec_witness :
    ("comments" ≠ "") ∧
    realtimeStoreExpand (fun i _ => (⟨i, 0⟩ : Entity Nat)) ⟨"r1", 5⟩ (some "comments")
      = (⟨"r1", 0⟩, [("r1", "comments")]) :=
  ⟨by decide,
    (realtimeStoreExpand_spec (fun i _ => (⟨i, 0⟩ : Entity Nat)) ⟨"r1", 5⟩ "comments").2.2
      (by decide)⟩

/-! ### C9: the Record Binding's per-event reconciliation -/

/-- C9: `recordStoreCallback` replaces the state with the
expansion-resolved incoming entity on `update` and `create`, sets the
state to absent on `delete`, and leaves the state unchanged on any
unrecognized action. -/
theorem recordStoreCallback_spec {β : Type} (getOne : String → Option String → Entity β)
    (item : Option (Entity β)) (r : Entity β) (qp : Option QueryParams) :
    recordStoreCallback getOne item ⟨"update", r⟩ qp
      = some (resolveEventRecord getOne qp ⟨"update", r⟩) ∧
    recordStoreCallback getOne item ⟨"create", r⟩ qp
      = some (resolveEventRecord getOne qp ⟨"create", r⟩) ∧
    recordStoreCallback getOne item ⟨"delete", r⟩ qp = none ∧
    ∀ a : String, a ∉ (["create", "update", "delete"] : List String) →
      recordStoreCallback getOne item ⟨a, r⟩ qp = item := by
  refine ⟨by simp [recordStoreCallback], by simp [recordStoreCallback],
    by simp [recordStoreCallback], ?_⟩
  intro a ha
  simp only [List.mem_cons, List.not_mem_nil, or_false] at ha
  push_neg at ha
  obtain ⟨h1, h2, h3⟩ := ha
  simp [recordStoreCallback, h1, h2, h3]

/-- Witness for `recordStoreCallback_spec`: a concrete unrecognized
action leaves a concrete state unchanged. -/
theorem recordStoreCallback_spec_witness :
    ("refresh" ∉ (["create", "update", "delete"] : List String)) ∧
    recordStoreCallback (fun i _ => (⟨i, 0⟩ : Entity Nat)) (some ⟨"r1", 7⟩)
      ⟨"refresh", ⟨"r2", 9⟩⟩ none = some ⟨"r1", 7⟩ :=
  ⟨by decide,
    (recordStoreCallback_spec (fun i _ => (⟨i, 0⟩ : Entity Nat)) (some ⟨"r1", 7⟩) ⟨"r2", 9⟩
      none).2.2.2 "refresh" (by decide)⟩

/-! ### C1: the Collection Binding's per-event reconciliation -/

/-- C1: `collectionStoreCallback` appends the expansion-resolved entity at
the end of the sequence on `create`; on `update` it keeps the length and
replaces, position by position, exactly the elements whose id matches the
(expansion-resolved) event entity's id; on `delete` it removes the
elements whose id matches the event entity's id, keeping the others in
order; any unrecognized action leaves the sequence unchanged. -/
theorem collectionStoreCallback_spec {β : Type} (getOne : String → Option String → Entity β)
    (list : List (Entity β)) (r : Entity β) (qp : Option QueryParams) :
    collectionStoreCallback getOne list ⟨"create", r⟩ qp
      = list ++ [resolveEventRecord getOne qp ⟨"create", r⟩] ∧
    ((collectionStoreCallback getOne list ⟨"update", r⟩ qp).length = list.length ∧
      ∀ k : Nat,
        (collectionStoreCallback getOne list ⟨"update", r⟩ qp)[k]? =
          (list[k]?).map fun item =>
            if item.id = (resolveEventRecord getOne qp ⟨"update", r⟩).id
            then resolveEventRecord getOne qp ⟨"update", r⟩ else item) ∧
    collectionStoreCallback getOne list ⟨"delete", r⟩ qp
      = (list.filter fun item => item.id ≠ r.id) ∧
    ∀ a : String, a ∉ (["create", "update", "delete"] : List String) →
      collectionStoreCallback getOne list ⟨a, r⟩ qp = list := by
  refine ⟨by simp [collectionStoreCallback],
    ⟨by simp [collectionStoreCallback], fun k => ?_⟩,
    by simp [collectionStoreCallback], ?_⟩
  · simp [collectionStoreCallback, List.getElem?_map]
  · intro a ha
    simp only [List.mem_cons, List.not_mem_nil, or_false] at ha
    push_neg at ha
    obtain ⟨h1, h2, h3⟩ := ha
    simp [collectionStoreCallback, h1, h2, h3]

/-- Witness for `collectionStoreCallback_spec`: a concrete unrecognized
action leaves a concrete sequence unchanged. -/
theorem collectionStoreCallback_spec_witness :
    ("noop" ∉ (["create", "update", "delete"] : List String)) ∧
    collectionStoreCallback (fun i _ => (⟨i, 0⟩ : Entity Nat)) [⟨"a", 1⟩, ⟨"b", 2⟩]
      ⟨"noop", ⟨"a", 3⟩⟩ none = [⟨"a", 1⟩, ⟨"b", 2⟩] :=
  ⟨by decide,
    (collectionStoreCallback_spec (fun i _ => (⟨i, 0⟩ : Entity Nat)) [⟨"a", 1⟩, ⟨"b", 2⟩]
      ⟨"a", 3⟩ none).2.2.2 "noop" (by decide)⟩

/-! ### C7: events touch only the `items` field of the page window -/

/-- C7: one realtime event on the paginated store rewrites only `items`;
`page`, `perPage`, `totalItems` and `totalPages` are unchanged. -/
theorem paginatedEventStep_metadata {β : Type} (getOne : String → Option String → Entity β)
    (sortFunction : Option (Entity β → Entity β → Int))
    (filterFunction : Option (Entity β → Nat → List (Entity β) → Bool))
    (qp : Option QueryParams) (r : ListResult β) (e : RecordSubscription β) :
    (paginatedEventStep getOne sortFunction filterFunction qp r e).page = r.page ∧
    (paginatedEventStep getOne sortFunction filterFunction qp r e).perPage = r.perPage ∧
    (paginatedEventStep getOne sortFunction filterFunction qp r e).totalItems = r.totalItems ∧
    (paginatedEventStep getOne sortFunction filterFunction qp r e).totalPages = r.totalPages :=
  ⟨rfl, rfl, rfl, rfl⟩

/-! ### C6: paginated navigation guard -/

/-- C6: `setPage n` is honored exactly when `1 ≤ n ≤ totalPages` as
currently known, in which case the whole window is replaced by a single
fresh page fetch at `(n, current perPage, queryParams)`; otherwise it is
a silent no-op issuing no fetch. `next`/`prev` request the current page
plus/minus one. -/
theorem setPage_spec {β : Type} (getList : Int → Int → Option QueryParams → ListResult β)
    (qp : Option QueryParams) (r : ListResult β) (n : Int) :
    (1 ≤ n → n ≤ r.totalPages →
      setPage getList qp r n = (getList n r.perPage qp, [(n, r.perPage, qp)])) ∧
    (¬(1 ≤ n ∧ n ≤ r.totalPages) → setPage getList qp r n = (r, [])) ∧
    nextPage getList qp r = setPage getList qp r (r.page + 1) ∧
    prevPage getList qp r = setPage getList qp r (r.page - 1) := by
  refine ⟨fun h1 h2 => ?_, fun h => ?_, rfl, rfl⟩
  · have h0 : (0 : Int) < n := by omega
    simp [setPage, h0, h2]
  · have h0 : ¬((0 : Int) < n ∧ n ≤ r.totalPages) := by omega
    simp only [setPage, if_neg h0]

/-- Witness for `setPage_spec`: on a concrete window with 3 total pages,
`setPage 2` fetches page 2 with the current `perPage`, while `setPage 0`
changes nothing and issues no fetch. -/
theorem setPage_spec_witness :
    ((1 : Int) ≤ 2) ∧ ((2 : Int) ≤ 3) ∧
    setPage (fun p pp _ => (⟨p, pp, 6, 3, []⟩ : ListResult Nat)) none
      ⟨1, 2, 6, 3, [⟨"a", 1⟩]⟩ 2 = (⟨2, 2, 6, 3, []⟩, [(2, 2, none)]) ∧
    (¬((1 : Int) ≤ 0 ∧ (0 : Int) ≤ 3)) ∧
    setPage (fun p pp _ => (⟨p, pp, 6, 3, []⟩ : ListResult Nat)) none
      ⟨1, 2, 6, 3, [⟨"a", 1⟩]⟩ 0 = (⟨1, 2, 6, 3, [⟨"a", 1⟩]⟩, []) :=
  ⟨by decide, by decide,
    (setPage_spec (fun p pp _ => (⟨p, pp, 6, 3, []⟩ : ListResult Nat)) none
      ⟨1, 2, 6, 3, [⟨"a", 1⟩]⟩ 2).1 (by decide) (by decide),
    by decide,
    (setPage_spec (fun p pp _ => (⟨p, pp, 6, 3, []⟩ : ListResult Nat)) none
      ⟨1, 2, 6, 3, [⟨"a", 1⟩]⟩ 0).2.1 (by decide)⟩

/-! ### C3: sort runs first, filter second -/

/-- The ascending comparator `byFieldAsc('n')` of the spec's example,
with the entity payload as the field `n`. -/
def byFieldAsc : Entity Int → Entity Int → Int := fun a b => a.data - b.data

/-- The `n > 0` filter predicate of the spec's example. -/
def positiveOnly : Entity Int → Nat → List (Entity Int) → Bool := fun v _ _ => decide (0 < v.data)

/-- A point-read oracle that just echoes the requested id (the expand
directive is irrelevant when `queryParams` is absent). -/
def echoGetOne : String → Option String → Entity Int := fun i _ => ⟨i, 0⟩

/-- C3: whenever both a `sortFunction` and a `filterFunction` are
supplied, the state published after an event — by `collectionStore` and
by the `items` field of `paginatedCollectionStore` — is the filter
applied to the sorted post-mutation sequence, never the reverse
composition; on the spec's example (ascending sort on `n`, filter
`n > 0`, created items with `n` values 3, −1, 2) the published values
are `[2, 3]`. -/
theorem sortThenFilter_spec {β : Type} (getOne : String → Option String → Entity β)
    (f : Entity β → Entity β → Int) (p : Entity β → Nat → List (Entity β) → Bool)
    (qp : Option QueryParams) (list : List (Entity β)) (r : ListResult β)
    (e : RecordSubscription β) :
    collectionEventStep getOne (some f) (some p) qp list e
      = jsFilter p (jsSort (some f) (collectionStoreCallback getOne list e qp)) ∧
    (paginatedEventStep getOne (some f) (some p) qp r e).items
      = jsFilter p (jsSort (some f) (paginatedCollectionStoreCallback getOne r e qp)) ∧
    ((collectionEventStep echoGetOne (some byFieldAsc) (some positiveOnly) none
        (collectionEventStep echoGetOne (some byFieldAsc) (some positiveOnly) none
          (collectionEventStep echoGetOne (some byFieldAsc) (some positiveOnly) none []
            ⟨"create", ⟨"a", 3⟩⟩)
          ⟨"create", ⟨"b", -1⟩⟩)
        ⟨"create", ⟨"c", 2⟩⟩).map Entity.data) = [2, 3] :=
  ⟨rfl, rfl, by decide⟩

/-! ### C4: without a `sortFunction`, the post-mutation order is published -/

/-- C4: with no `sortFunction` option, the state published after an event
is the per-event mutation result itself when no `filterFunction` is
given, and with a `filterFunction` it is that mutation result filtered —
a sublist of it in the same relative order. Processing an event never
reorders the sequence relative to the mutation result. -/
theorem noSortFunction_spec {β : Type} (getOne : String → Option String → Entity β)
    (p : Entity β → Nat → List (Entity β) → Bool) (qp : Option QueryParams)
    (list : List (Entity β)) (e : RecordSubscription β) :
    collectionEventStep getOne none none qp list e = collectionStoreCallback getOne list e qp ∧
    collectionEventStep getOne none (some p) qp list e
      = jsFilter p (collectionStoreCallback getOne list e qp) ∧
    (collectionEventStep getOne none (some p) qp list e).Sublist
      (collectionStoreCallback getOne list e qp) := by
  refine ⟨?_, ?_, ?_⟩
  · show collectionStorePublish none none _ = _
    simp only [collectionStorePublish, jsSort_none]
  · show collectionStorePublish none (some p) _ = _
    simp only [collectionStorePublish, jsFilter, jsSort_none]
  · show (collectionStorePublish none (some p) _).Sublist _
    simp only [collectionStorePublish, jsSort_none]
    exact jsFilter_sublist p _

/-! ### C5: teardown behaviour -/

theorem teardownTrace_succ (n : Nat) :
    teardownTrace (n + 1)
      = TeardownEvent.awaitedAcquisition :: TeardownEvent.invokedRelease :: teardownTrace n := by
  simp [teardownTrace, unsubscribeInvocationTrace, List.replicate_succ]

/-- C5 counterexample: invoking the teardown closure twice invokes the
backend release function twice, not exactly once. -/
theorem teardown_release_not_once :
    (teardownTrace 2).count TeardownEvent.invokedRelease ≠ 1 := by decide

/-- C5 (amended): each teardown invocation awaits the
subscription-acquisition promise before invoking the release function —
in every prefix of the effect trace the number of release invocations
never exceeds the number of completed acquisition awaits — but the
release function is invoked once per teardown invocation: `n` calls
yield `n` release invocations, so repeated teardown duplicates the
release instead of being idempotent. -/
theorem teardownTrace_spec (n : Nat) :
    (teardownTrace n).count TeardownEvent.invokedRelease = n ∧
    (teardownTrace n).count TeardownEvent.awaitedAcquisition = n ∧
    ∀ k : Nat,
      ((teardownTrace n).take k).count TeardownEvent.invokedRelease ≤
        ((teardownTrace n).take k).count TeardownEvent.awaitedAcquisition := by
  have har : (TeardownEvent.awaitedAcquisition == TeardownEvent.invokedRelease) = false := by
    decide
  have hra : (TeardownEvent.invokedRelease == TeardownEvent.awaitedAcquisition) = false := by
    decide
  induction n with
  | zero => exact ⟨rfl, rfl, fun k => by simp [teardownTrace]⟩
  | succ m ih =>
    obtain ⟨ih1, ih2, ih3⟩ := ih
    refine ⟨?_, ?_, ?_⟩
    · simp [teardownTrace_succ, List.count_cons, ih1, har, hra]
    · simp [teardownTrace_succ, List.count_cons, ih2, har, hra]
    · intro k
      match k with
      | 0 => simp
      | 1 => simp [teardownTrace_succ, List.count_cons, har, hra]
      | Nat.succ (Nat.succ j) =>
        have hj := ih3 j
        simp only [teardownTrace_succ, List.take_succ_cons, List.count_cons, har, hra]
        simp only [beq_self_eq_true, if_true, if_false]
        omega

/-! ### C2: whole-stream reconciliation

The per-id reference semantics used to characterize `applyEvents`: the
effect of one event on the (at most one) entity currently held for an
id. `create`/`update` key on the expansion-resolved record's id —
exactly the id `collectionStoreCallback` matches on — and `delete` on
the raw event record's id; an `update` for an id not currently present
has no effect. -/

/-- Reference effect of one event on the entity held for id `i`. -/
def refApplyEvent {β : Type} (getOne : String → Option String → Entity β)
    (qp : Option QueryParams) (e : RecordSubscription β) (i : String)
    (cur : Option (Entity β)) : Option (Entity β) :=
  if e.action = "update" then
    let r := resolveEventRecord getOne qp e
    if r.id = i ∧ cur.isSome then some r else cur
  else if e.action = "create" then
    let r := resolveEventRecord getOne qp e
    if r.id = i then some r else cur
  else if e.action = "delete" then
    if e.record.id = i then none else cur
  else
    cur

/-- Per-id last-writer-wins replay of a whole event stream. -/
def refReplay {β : Type} (getOne : String → Option String → Entity β)
    (qp : Option QueryParams) (events : List (RecordSubscription β)) (i : String)
    (init : Option (Entity β)) : Option (Entity β) :=
  events.foldl (fun cur e => refApplyEvent getOne qp e i cur) init

/-- Every `create` event in the stream arrives while no entity with the
(expansion-resolved) created id is in the sequence. -/
def createsFresh {β : Type} (getOne : String → Option String → Entity β)
    (qp : Option QueryParams) : List (Entity β) → List (RecordSubscription β) → Bool
  | _, [] => true
  | list, e :: es =>
    (if e.action = "create" then (findById list (resolveEventRecord getOne qp e).id).isNone
     else true)
      && createsFresh getOne qp (collectionStoreCallback getOne list e qp) es

theorem find?_map_of_pred {α : Type} {p : α → Bool} {g : α → α}
    (hg : ∀ x, p (g x) = p x) (l : List α) :
    (l.map g).find? p = (l.find? p).map g := by
  induction l with
  | nil => rfl
  | cons x xs ih =>
    by_cases hx : p x
    · rw [List.map_cons, List.find?_cons_of_pos _ (by rw [hg]; exact hx),
        List.find?_cons_of_pos _ hx]
      rfl
    · rw [List.map_cons, List.find?_cons_of_neg _ (by rw [hg]; exact hx),
        List.find?_cons_of_neg _ hx, ih]

theorem find?_filter_of_imp {α : Type} {p q : α → Bool}
    (hpq : ∀ x, p x = true → q x = true) (l : List α) :
    (l.filter q).find? p = l.find? p := by
  induction l with
  | nil => rfl
  | cons x xs ih =>
    by_cases hq : q x
    · by_cases hp : p x
      · rw [List.filter_cons_of_pos hq, List.find?_cons_of_pos _ hp,
          List.find?_cons_of_pos _ hp]
      · rw [List.filter_cons_of_pos hq, List.find?_cons_of_neg _ hp,
          List.find?_cons_of_neg _ hp, ih]
    · have hp : ¬p x = true := fun hpx => hq (hpq x hpx)
      rw [List.filter_cons_of_neg hq, List.find?_cons_of_neg _ hp, ih]

theorem map_id_update {β : Type} (r : Entity β) (l : List (Entity β)) :
    (l.map fun item => if item.id = r.id then r else item).map Entity.id
      = l.map Entity.id := by
  rw [List.map_map]
  refine List.map_congr_left fun x _ => ?_
  by_cases h : x.id = r.id
  · simp [Function.comp, h]
  · simp [Function.comp, h]

theorem not_mem_of_findById_none {β : Type} {l : List (Entity β)} {i : String}
    (h : findById l i = none) : i ∉ l.map Entity.id := by
  intro hmem
  obtain ⟨x, hx, hxi⟩ := List.mem_map.mp hmem
  rw [findById, List.find?_eq_none] at h
  exact h x hx (by simpa using hxi)

theorem findById_none_of_not_mem {β : Type} {l : List (Entity β)} {i : String}
    (h : i ∉ l.map Entity.id) : findById l i = none := by
  rw [findById, List.find?_eq_none]
  intro x hx hxi
  exact h (List.mem_map.mpr ⟨x, hx, by simpa using hxi⟩)

theorem filter_id_eq_findById {β : Type} {l : List (Entity β)} (i : String)
    (h : (l.map Entity.id).Nodup) :
    (l.filter fun x => x.id = i) = (findById l i).toList := by
  induction l with
  | nil => rfl
  | cons x xs ih =>
    rw [List.map_cons, List.nodup_cons] at h
    obtain ⟨hx, hxs⟩ := h
    by_cases hxi : x.id = i
    · rw [List.filter_cons_of_pos (by simpa using hxi), findById,
        List.find?_cons_of_pos _ (by simpa using hxi)]
      have hnil : (xs.filter fun a => a.id = i) = [] := by
        rw [List.filter_eq_nil_iff]
        intro a ha hai
        refine hx (List.mem_map.mpr ⟨a, ha, ?_⟩)
        have : a.id = i := by simpa using hai
        rw [this, hxi]
      simp [hnil]
    · rw [List.filter_cons_of_neg (by simpa using hxi), findById,
        List.find?_cons_of_neg _ (by simpa using hxi)]
      exact ih hxs

theorem callback_nodup {β : Type} (getOne : String → Option String → Entity β)
    (qp : Option QueryParams) {list : List (Entity β)} {e : RecordSubscription β}
    (hnd : (list.map Entity.id).Nodup)
    (hfresh : e.action = "create" →
      findById list (resolveEventRecord getOne qp e).id = none) :
    ((collectionStoreCallback getOne list e qp).map Entity.id).Nodup := by
  by_cases hu : e.action = "update"
  · simpa only [collectionStoreCallback, if_pos hu, map_id_update] using hnd
  by_cases hc : e.action = "create"
  · have hr : (resolveEventRecord getOne qp e).id ∉ list.map Entity.id :=
      not_mem_of_findById_none (hfresh hc)
    simp only [collectionStoreCallback, if_neg hu, if_pos hc, List.map_append]
    simp [List.nodup_append, hnd, List.Disjoint]
    intro a ha hai
    exact hr (hai ▸ List.mem_map.mpr ⟨a, ha, rfl⟩)
  by_cases hd : e.action = "delete"
  · simp only [collectionStoreCallback, if_neg hu, if_neg hc, if_pos hd]
    exact List.Nodup.sublist ((List.filter_sublist list).map Entity.id) hnd
  · simpa only [collectionStoreCallback, if_neg hu, if_neg hc, if_neg hd] using hnd

theorem callback_findById {β : Type} (getOne : String → Option String → Entity β)
    (qp : Option QueryParams) {list : List (Entity β)} {e : RecordSubscription β}
    (hfresh : e.action = "create" →
      findById list (resolveEventRecord getOne qp e).id = none) (i : String) :
    findById (collectionStoreCallback getOne list e qp) i
      = refApplyEvent getOne qp e i (findById list i) := by
  by_cases hu : e.action = "update"
  · simp only [collectionStoreCallback, if_pos hu, refApplyEvent, findById]
    set r := resolveEventRecord getOne qp e with hr
    have hg : ∀ x : Entity β,
        (decide ((if x.id = r.id then r else x).id = i) : Bool) = decide (x.id = i) := by
      intro x
      by_cases hx : x.id = r.id
      · simp [hx]
      · simp [hx]
    rw [find?_map_of_pred hg]
    cases hfind : list.find? fun x => x.id = i with
    | none => simp
    | some x =>
      have hxi : x.id = i := by simpa using List.find?_some hfind
      by_cases hri : r.id = i
      · simp [hri, hxi.trans hri.symm]
      · have : ¬x.id = r.id := fun hxr => hri (hxr ▸ hxi)
        simp [hri, this]
  by_cases hc : e.action = "create"
  · simp only [collectionStoreCallback, if_neg hu, if_pos hc, refApplyEvent, findById]
    rw [List.find?_append, List.find?_singleton]
    by_cases hri : (resolveEventRecord getOne qp e).id = i
    · have : list.find? (fun x => x.id = i) = none := by
        have := hfresh hc
        rw [findById] at this
        simpa [hri] using this
      simp [this, hri]
    · simp [hri, Option.or_none]
  by_cases hd : e.action = "delete"
  · simp only [collectionStoreCallback, if_neg hu, if_neg hc, if_pos hd, refApplyEvent,
      findById]
    by_cases hdi : e.record.id = i
    · rw [if_pos hdi, List.find?_eq_none]
      intro x hx hxi
      rw [List.mem_filter] at hx
      have : x.id = i := by simpa using hxi
      exact (by simpa using hx.2 : x.id ≠ e.record.id) (this.trans hdi.symm)
    · rw [if_neg hdi]
      refine find?_filter_of_imp (fun x hx => ?_) list
      have hxi : x.id = i := by simpa using hx
      have hne : ¬i = e.record.id := fun h => hdi h.symm
      simp [hxi, hne]
  · simp only [collectionStoreCallback, if_neg hu, if_neg hc, if_neg hd, refApplyEvent,
      findById]

theorem applyEvents_char {β : Type} (getOne : String → Option String → Entity β)
    (qp : Option QueryParams) :
    ∀ (events : List (RecordSubscription β)) (init : List (Entity β)),
      (init.map Entity.id).Nodup →
      createsFresh getOne qp init events = true →
      ((applyEvents getOne qp init events).map Entity.id).Nodup ∧
        ∀ i : String,
          findById (applyEvents getOne qp init events) i
            = refReplay getOne qp events i (findById init i) := by
  intro events
  induction events with
  | nil => exact fun init hnd _ => ⟨hnd, fun i => rfl⟩
  | cons e es ih =>
    intro init hnd hfresh
    rw [createsFresh, Bool.and_eq_true] at hfresh
    obtain ⟨hfr0, hrest⟩ := hfresh
    have hfr : e.action = "create" →
        findById init (resolveEventRecord getOne qp e).id = none := by
      intro hc
      rw [if_pos hc, Option.isNone_iff_eq_none] at hfr0
      exact hfr0
    have hnd' := callback_nodup getOne qp hnd hfr
    obtain ⟨h1, h2⟩ := ih (collectionStoreCallback getOne init e qp) hnd' hrest
    have happ : applyEvents getOne qp init (e :: es)
        = applyEvents getOne qp (collectionStoreCallback getOne init e qp) es := rfl
    refine ⟨happ ▸ h1, fun i => ?_⟩
    rw [happ, h2 i, callback_findById getOne qp hfr i]
    rfl

/-- C2 counterexample: the claim quantifies over every event sequence,
but two `create` events carrying the same id each append, leaving two
entities with the created (and never deleted) id — not exactly one. -/
theorem applyEvents_duplicate_create :
    ((applyEvents echoGetOne none []
        [⟨"create", ⟨"a", 1⟩⟩, ⟨"create", ⟨"a", 2⟩⟩]).filter fun x => x.id = "a").length
      ≠ 1 := by decide

/-- C2 (amended): provided the starting snapshot's ids are pairwise
distinct and every `create` event arrives while no entity with the
created id is in the sequence, the reconciled sequence holds, for every
id, exactly the entity produced by a per-id last-writer-wins replay of
the stream — one entity for each id created (or initially present) and
not subsequently deleted, reflecting its most recent update, and none
for the other ids. -/
theorem applyEvents_replay_spec {β : Type} (getOne : String → Option String → Entity β)
    (qp : Option QueryParams) (init : List (Entity β))
    (events : List (RecordSubscription β)) (i : String)
    (hnd : (init.map Entity.id).Nodup)
    (hfresh : createsFresh getOne qp init events = true) :
    ((applyEvents getOne qp init events).filter fun x => x.id = i)
      = (refReplay getOne qp events i (findById init i)).toList := by
  obtain ⟨h1, h2⟩ := applyEvents_char getOne qp events init hnd hfresh
  rw [filter_id_eq_findById i h1, h2 i]

/-- Witness for `applyEvents_replay_spec`: a concrete snapshot and
stream (create `"a"`, update `"a"`, delete `"x"`), checked at id `"a"`. -/
theorem applyEvents_replay_spec_witness :
    (([(⟨"x", 0⟩ : Entity Int)].map Entity.id).Nodup) ∧
    (createsFresh echoGetOne none [⟨"x", 0⟩]
        [⟨"create", ⟨"a", 1⟩⟩, ⟨"update", ⟨"a", 2⟩⟩, ⟨"delete", ⟨"x", 0⟩⟩] = true) ∧
    ((applyEvents echoGetOne none [⟨"x", 0⟩]
        [⟨"create", ⟨"a", 1⟩⟩, ⟨"update", ⟨"a", 2⟩⟩, ⟨"delete", ⟨"x", 0⟩⟩]).filter
          fun x => x.id = "a")
      = (refReplay echoGetOne none
          [⟨"create", ⟨"a", 1⟩⟩, ⟨"update", ⟨"a", 2⟩⟩, ⟨"delete", ⟨"x", 0⟩⟩] "a"
          (findById [⟨"x", 0⟩] "a")).toList :=
  ⟨by decide, by decide,
    applyEvents_replay_spec echoGetOne none [⟨"x", 0⟩]
      [⟨"create", ⟨"a", 1⟩⟩, ⟨"update", ⟨"a", 2⟩⟩, ⟨"delete", ⟨"x", 0⟩⟩] "a"
      (by decide) (by decide)⟩

/-! ### C10: the snapshot is filtered destructively -/

theorem mem_of_mem_publish {β : Type} {sortF : Option (Entity β → Entity β → Int)}
    {filterF : Option (Entity β → Nat → List (Entity β) → Bool)} {c : List (Entity β)}
    {x : Entity β} (h : x ∈ collectionStorePublish sortF filterF c) : x ∈ c := by
  cases filterF with
  | none => exact mem_jsSort.mp h
  | some p => exact mem_jsSort.mp ((jsFilter_sublist p (jsSort sortF c)).subset h)

theorem callback_ids_subset {β : Type} (getOne : String → Option String → Entity β)
    (qp : Option QueryParams) {list : List (Entity β)} {e : RecordSubscription β}
    (hne : e.action ≠ "create") :
    (collectionStoreCallback getOne list e qp).map Entity.id ⊆ list.map Entity.id := by
  by_cases hu : e.action = "update"
  · rw [show (collectionStoreCallback getOne list e qp).map Entity.id = list.map Entity.id
        from by simp only [collectionStoreCallback, if_pos hu, map_id_update]]
    exact fun _ hx => hx
  by_cases hd : e.action = "delete"
  · simp only [collectionStoreCallback, if_neg hu, if_neg hne, if_pos hd]
    exact ((List.filter_sublist list).map Entity.id).subset
  · simp only [collectionStoreCallback, if_neg hu, if_neg hne, if_neg hd]
    exact fun _ hx => hx

/-- The index-based filter predicate `(_, i) => i !== 0` used in the C10
counterexample. -/
def dropFirst : Entity Int → Nat → List (Entity Int) → Bool := fun _ i _ => decide (i ≠ 0)

/-- C10 counterexample: the filter is re-applied to the whole snapshot
on every event, so with an index-sensitive `filterFunction` an update
event for an id the filter already dropped does not leave the published
sequence unchanged. Concretely, with filter `(_, i) => i !== 0` and
snapshot `[x, a]`, an update for `"x"` publishes `[a]` (the filter drops
`"x"`), and a second update for the now-absent `"x"` publishes `[]`,
changing the sequence. -/
theorem destructiveFilter_counterexample :
    ("x" ∈ ([⟨"x", 0⟩, ⟨"a", 1⟩] : List (Entity Int)).map Entity.id) ∧
    ("x" ∉ (collectionEventStep echoGetOne none (some dropFirst) none
        [⟨"x", 0⟩, ⟨"a", 1⟩] ⟨"update", ⟨"x", 5⟩⟩).map Entity.id) ∧
    collectionEventStep echoGetOne none (some dropFirst) none
        (collectionEventStep echoGetOne none (some dropFirst) none
          [⟨"x", 0⟩, ⟨"a", 1⟩] ⟨"update", ⟨"x", 5⟩⟩)
        ⟨"update", ⟨"x", 7⟩⟩
      ≠ collectionEventStep echoGetOne none (some dropFirst) none
          [⟨"x", 0⟩, ⟨"a", 1⟩] ⟨"update", ⟨"x", 5⟩⟩ := by decide

/-- C10 (amended): filtering is destructive — once an id is absent from
the stored snapshot, no non-`create` event (in particular no update
carrying that id) reintroduces any entity with that id; and when the
`filterFunction` depends only on the entity value and no `sortFunction`
is supplied, an update event carrying an absent id leaves the published
sequence exactly unchanged. Only a `create` event (or a reload) can
reintroduce the entity. -/
theorem destructiveFilter_spec {β : Type} (getOne : String → Option String → Entity β)
    (sortF : Option (Entity β → Entity β → Int))
    (filterF : Option (Entity β → Nat → List (Entity β) → Bool))
    (qp : Option QueryParams) (q : Entity β → Bool) (s : List (Entity β))
    (e1 e2 : RecordSubscription β) (i : String) :
    (e2.action ≠ "create" → i ∉ s.map Entity.id →
      i ∉ (collectionEventStep getOne sortF filterF qp s e2).map Entity.id) ∧
    (e2.action = "update" →
      (resolveEventRecord getOne qp e2).id
        ∉ (collectionEventStep getOne none (some fun v _ _ => q v) qp s e1).map Entity.id →
      collectionEventStep getOne none (some fun v _ _ => q v) qp
          (collectionEventStep getOne none (some fun v _ _ => q v) qp s e1) e2
        = collectionEventStep getOne none (some fun v _ _ => q v) qp s e1) := by
  constructor
  · intro hne hmem hcontra
    obtain ⟨x, hx, hxi⟩ := List.mem_map.mp hcontra
    have hxc : x ∈ collectionStoreCallback getOne s e2 qp := mem_of_mem_publish hx
    exact hmem (callback_ids_subset getOne qp hne (List.mem_map.mpr ⟨x, hxc, hxi⟩))
  · intro hu hnr
    set s1 := collectionEventStep getOne none (some fun v _ _ => q v) qp s e1 with hs1
    have hcb : collectionStoreCallback getOne s1 e2 qp = s1 := by
      simp only [collectionStoreCallback, if_pos hu]
      have hfix : ∀ x ∈ s1,
          (if x.id = (resolveEventRecord getOne qp e2).id
           then resolveEventRecord getOne qp e2 else x) = x := by
        intro x hx
        have hxne : x.id ≠ (resolveEventRecord getOne qp e2).id := by
          intro hxe
          exact hnr (List.mem_map.mpr ⟨x, hx, hxe⟩)
        simp [hxne]
      rw [List.map_congr_left hfix, List.map_id']
    have hstep : collectionEventStep getOne none (some fun v _ _ => q v) qp s1 e2
        = List.filter q s1 := by
      simp only [collectionEventStep, collectionStorePublish, hcb, jsSort_none,
        jsFilter_valueOnly]
    have hs1f : s1 = List.filter q (collectionStoreCallback getOne s e1 qp) := by
      simp only [hs1, collectionEventStep, collectionStorePublish, jsSort_none,
        jsFilter_valueOnly]
    rw [hstep, hs1f, List.filter_filter]
    exact List.filter_congr fun a _ => Bool.and_self _

/-- The value-only positivity predicate used in the C10 witness. -/
def posQ : Entity Int → Bool := fun v => decide (0 < v.data)

/-- Witness for `destructiveFilter_spec`: snapshot `[x(1)]`, an update of
`"x"` to a negative value gets filtered out, and a later update for the
absent `"x"` neither reintroduces it nor changes the published sequence. -/
theorem destructiveFilter_spec_witness :
    (("update" : String) ≠ "create") ∧
    ("z" ∉ ([(⟨"x", 1⟩ : Entity Int)].map Entity.id)) ∧
    ("z" ∉ ((collectionEventStep echoGetOne none (some fun v _ _ => posQ v) none
        [⟨"x", 1⟩] ⟨"update", ⟨"x", 9⟩⟩).map Entity.id)) ∧
    ((resolveEventRecord echoGetOne none ⟨"update", ⟨"x", 9⟩⟩).id
      ∉ ((collectionEventStep echoGetOne none (some fun v _ _ => posQ v) none
          [⟨"x", 1⟩] ⟨"update", ⟨"x", -3⟩⟩).map Entity.id)) ∧
    (collectionEventStep echoGetOne none (some fun v _ _ => posQ v) none
        (collectionEventStep echoGetOne none (some fun v _ _ => posQ v) none
          [⟨"x", 1⟩] ⟨"update", ⟨"x", -3⟩⟩)
        ⟨"update", ⟨"x", 9⟩⟩
      = collectionEventStep echoGetOne none (some fun v _ _ => posQ v) none
          [⟨"x", 1⟩] ⟨"update", ⟨"x", -3⟩⟩) :=
  ⟨by decide, by decide,
    (destructiveFilter_spec echoGetOne none (some fun v _ _ => posQ v) none posQ
      [⟨"x", 1⟩] ⟨"update", ⟨"x", -3⟩⟩ ⟨"update", ⟨"x", 9⟩⟩ "z").1 (by decide) (by decide),
    by decide,
    (destructiveFilter_spec echoGetOne none (some fun v _ _ => posQ v) none posQ
      [⟨"x", 1⟩] ⟨"update", ⟨"x", -3⟩⟩ ⟨"update", ⟨"x", 9⟩⟩ "z").2 rfl (by decide)⟩

end SveltePocketbase
